import Mathlib

/-!
Verification of the core algorithms of the assets-market-cap frontend:
the candle merge of the lightweight auto-refresh, the technical
indicators (SMA, EMA, Bollinger bands), the timezone conversion of
wall-clock timestamps, the market-hours calculator, the rate-limit retry
controller, the auto-refresh scheduler, and the error classification.
Each definition is a shallow embedding of the corresponding TypeScript
function; theorems settle the stated properties.
-/

/-- One candle of the chart history, as built in the lightweight-refresh
merge: date, timestamp, price, open, high, low, volume.  The JS field
named open is called openPrice here because open is a Lean keyword. -/
structure PricePoint where
  date : String
  timestamp : Int
  price : Rat
  openPrice : Option Rat
  high : Option Rat
  low : Option Rat
  volume : Option Rat
deriving DecidableEq

/-- JS Map.set on an insertion-ordered association list keyed by
timestamp: on an existing key the stored candle is replaced in place,
otherwise the new candle is appended.  This models
existingByTimestamp.set(candle.timestamp, candle) in AssetDetailPage. -/
def mapSet (m : List PricePoint) (c : PricePoint) : List PricePoint :=
  if m.any (fun p => p.timestamp == c.timestamp) then
    m.map (fun p => if p.timestamp == c.timestamp then c else p)
  else
    m ++ [c]

/-- Insertion-ordered map built from the existing series keyed by
timestamp, modelling new Map(prev.map(p => [p.timestamp, p])). -/
def buildMap (prev : List PricePoint) : List PricePoint :=
  prev.foldl mapSet []

/-- Overlay of the incoming batch on the keyed map of the existing
series: the for loop that calls existingByTimestamp.set for every new
candle. -/
def candleMap (prev incoming : List PricePoint) : List PricePoint :=
  incoming.foldl mapSet (buildMap prev)

/-- Order used by the final sort, from the comparator
(a, b) => a.timestamp - b.timestamp. -/
def tsLe (a b : PricePoint) : Prop := a.timestamp ≤ b.timestamp

/-- Strict timestamp order, used to state strict ascent of a series. -/
def tsLt (a b : PricePoint) : Prop := a.timestamp < b.timestamp

instance : DecidableRel tsLe :=
  fun a b => inferInstanceAs (Decidable (a.timestamp ≤ b.timestamp))

instance : DecidableRel tsLt :=
  fun a b => inferInstanceAs (Decidable (a.timestamp < b.timestamp))

instance : IsTotal PricePoint tsLe :=
  ⟨fun a b => Int.le_total a.timestamp b.timestamp⟩

instance : IsTrans PricePoint tsLe :=
  ⟨fun _ _ _ h1 h2 => le_trans h1 h2⟩

instance : IsAntisymm PricePoint tsLt :=
  ⟨fun _ _ h1 h2 => absurd (lt_trans h1 h2) (lt_irrefl _)⟩

/-- Merge of the lightweight auto-refresh effect in AssetDetailPage:
keyed overlay of the incoming candles on the existing series,
materialized sorted ascending by timestamp, as in
Array.from(existingByTimestamp.values()).sort((a, b) => a.timestamp - b.timestamp).
The keys of the overlay are unique, so sorting by timestamp determines
the list; insertionSort is used as the sort. -/
def mergeCandles (prev incoming : List PricePoint) : List PricePoint :=
  List.insertionSort tsLe (candleMap prev incoming)

/-- Updater passed to setHistoryData by the lightweight auto-refresh
effect: if the existing history is absent or empty the previous state is
returned unchanged (the incoming candles are dropped), otherwise the
incoming candles are merged in.  Models the guard
if (!prev || prev.length === 0) return prev. -/
def setHistoryDataUpdater (incoming : List PricePoint) (prev : Option (List PricePoint)) :
    Option (List PricePoint) :=
  match prev with
  | none => none
  | some l => if l.length = 0 then some l else some (mergeCandles l incoming)

/-- Strictly ascending by timestamp; this also forces timestamp
uniqueness, the invariant of a CandleSeries. -/
def strictAscending (l : List PricePoint) : Prop := l.Pairwise tsLt

instance (l : List PricePoint) : Decidable (strictAscending l) :=
  inferInstanceAs (Decidable (l.Pairwise tsLt))

/-- Timestamps of a series, in order. -/
def tsKeys (l : List PricePoint) : List Int := l.map (fun p => p.timestamp)

/-- Lookup by timestamp: the first element carrying the timestamp. -/
def tsLookup (m : List PricePoint) (t : Int) : Option PricePoint :=
  m.find? (fun p => p.timestamp == t)

/-- Last element of a batch carrying a given timestamp: the write that
wins for that key. -/
def lastWrite (l : List PricePoint) (t : Int) : Option PricePoint :=
  l.reverse.find? (fun p => p.timestamp == t)

/-- Sample candle used for concrete scenarios: a timestamp and a price,
all optional fields absent. -/
def pp (t : Int) (pr : Rat) : PricePoint :=
  ⟨"", t, pr, none, none, none, none⟩

/-- Simple moving average, from calculateSMA: undefined below index
period - 1, then the mean of the period prices ending at index i,
accumulated by the inner loop sum += prices[i - j]. -/
def calculateSMA {α : Type} [Field α] (prices : List α) (period : Nat) : List (Option α) :=
  (List.range prices.length).map (fun i =>
    if i < period - 1 then none
    else some (((List.range period).foldl (fun sum j => sum + prices.getD (i - j) 0) 0) / (period : α)))

/-- Value pushed by iteration i of the calculateEMA loop, given the part
of the result built so far: undefined below period - 1, the SMA seed at
period - 1, and otherwise the recurrence over the previous entry with
multiplier 2 / (period + 1), undefined if the previous entry is. -/
def emaNext {α : Type} [Field α] (prices : List α) (period : Nat)
    (result : List (Option α)) (i : Nat) : Option α :=
  if i < period - 1 then none
  else if i = period - 1 then
    some (((List.range period).foldl (fun sum j => sum + prices.getD (i - j) 0) 0) / (period : α))
  else
    match result.getD (i - 1) none with
    | some previousEMA =>
        some (prices.getD i 0 * (2 / ((period : α) + 1)) +
          previousEMA * (1 - 2 / ((period : α) + 1)))
    | none => none

/-- State of the calculateEMA result array after the loop has processed
the indices below n. -/
def emaFold {α : Type} [Field α] (prices : List α) (period : Nat) (n : Nat) :
    List (Option α) :=
  (List.range n).foldl (fun result i => result ++ [emaNext prices period result i]) []

/-- Exponential moving average, from calculateEMA. -/
def calculateEMA {α : Type} [Field α] (prices : List α) (period : Nat) : List (Option α) :=
  emaFold prices period prices.length

/-- Arithmetic mean of the window of the last period prices ending at
index i, written from the spec independently of the implementation
loop. -/
def windowMean {α : Type} [Field α] (prices : List α) (period i : Nat) : α :=
  (((prices.drop (i + 1 - period)).take period).sum) / (period : α)

/-- Population standard deviation, from calculateStandardDeviation:
mean by reduce, squared differences by map, variance dividing by n (not
n - 1), then the square root. -/
noncomputable def calculateStandardDeviation (values : List ℝ) : ℝ :=
  let n := values.length
  if n = 0 then 0
  else
    let mean := values.foldl (fun sum val => sum + val) 0 / (n : ℝ)
    let squaredDiffs := values.map (fun val => (val - mean) ^ 2)
    let variance := squaredDiffs.foldl (fun sum val => sum + val) 0 / (n : ℝ)
    Real.sqrt variance

/-- Result triple of calculateBollingerBands. -/
structure BollingerBandsResult where
  upper : List (Option ℝ)
  middle : List (Option ℝ)
  lower : List (Option ℝ)

/-- Bollinger bands, from calculateBollingerBands: middle is the SMA;
where defined, upper and lower add and subtract the standard deviation
of the window prices.slice(i - period + 1, i + 1) times the
multiplier.  The slice start i - period + 1 is computed by JS over the
integers and is nonnegative in the branch that uses it, so it is
rendered here as the natural number i + 1 - period. -/
noncomputable def calculateBollingerBands (prices : List ℝ) (period : Nat)
    (standardDeviations : ℝ) : BollingerBandsResult :=
  let middle := calculateSMA prices period
  { upper := (List.range prices.length).map (fun i =>
      if i < period - 1 then none
      else match middle.getD i none with
        | none => none
        | some middleValue =>
            some (middleValue +
              calculateStandardDeviation
                ((prices.drop (i + 1 - period)).take (i + 1 - (i + 1 - period))) *
              standardDeviations))
    middle := middle
    lower := (List.range prices.length).map (fun i =>
      if i < period - 1 then none
      else match middle.getD i none with
        | none => none
        | some middleValue =>
            some (middleValue -
              calculateStandardDeviation
                ((prices.drop (i + 1 - period)).take (i + 1 - (i + 1 - period))) *
              standardDeviations)) }

/-- Population standard deviation as the spec states it: square root of
the mean of squared deviations from the window mean, dividing by N. -/
noncomputable def popStdDev (w : List ℝ) : ℝ :=
  Real.sqrt ((w.map (fun x => (x - w.sum / (w.length : ℝ)) ^ 2)).sum / (w.length : ℝ))

theorem tsLookup_nil (t : Int) : tsLookup [] t = none := rfl

/-- Replacing every entry of the key of c by c rewires only that key. -/
theorem tsLookup_update (m : List PricePoint) (c : PricePoint) (t : Int) :
    tsLookup (m.map (fun p => if p.timestamp == c.timestamp then c else p)) t =
      if t = c.timestamp then (tsLookup m c.timestamp).map (fun _ => c)
      else tsLookup m t := by
  unfold tsLookup
  rw [List.find?_map]
  by_cases ht : t = c.timestamp
  · have hfun : ((fun p : PricePoint => p.timestamp == t) ∘
        fun p => if p.timestamp == c.timestamp then c else p) =
        (fun p : PricePoint => p.timestamp == c.timestamp) := by
      funext p
      by_cases hp : p.timestamp = c.timestamp <;> simp [Function.comp, hp, ht]
    rw [hfun, if_pos ht]
    cases hfind : m.find? (fun p => p.timestamp == c.timestamp) with
    | none => simp
    | some q =>
      have hq : q.timestamp = c.timestamp := by
        simpa [beq_iff_eq] using List.find?_some hfind
      simp [hq]
  · have hfun : ((fun p : PricePoint => p.timestamp == t) ∘
        fun p => if p.timestamp == c.timestamp then c else p) =
        (fun p : PricePoint => p.timestamp == t) := by
      funext p
      by_cases hp : p.timestamp = c.timestamp
      · have h1 : ¬ (c.timestamp == t) = true := by simp [beq_iff_eq]; omega
        have h2 : ¬ (p.timestamp == t) = true := by simp [beq_iff_eq, hp]; omega
        simp [Function.comp, hp, h1, h2]
      · simp [Function.comp, hp]
    rw [hfun, if_neg ht]
    cases hfind : m.find? (fun p => p.timestamp == t) with
    | none => simp
    | some q =>
      have hq : q.timestamp = t := by
        simpa [beq_iff_eq] using List.find?_some hfind
      have hqc : ¬ q.timestamp = c.timestamp := by omega
      simp [hqc]

/-- Map.set semantics on the lookup function: the new candle now answers
for its key, all other keys are untouched. -/
theorem tsLookup_mapSet (m : List PricePoint) (c : PricePoint) (t : Int) :
    tsLookup (mapSet m c) t = if t = c.timestamp then some c else tsLookup m t := by
  unfold mapSet
  by_cases hany : (m.any (fun p => p.timestamp == c.timestamp)) = true
  · rw [if_pos hany, tsLookup_update]
    by_cases ht : t = c.timestamp
    · rcases List.any_eq_true.mp hany with ⟨q, hq, hqt⟩
      have : (tsLookup m c.timestamp).isSome := by
        unfold tsLookup
        exact List.find?_isSome.mpr ⟨q, hq, hqt⟩
      rcases Option.isSome_iff_exists.mp this with ⟨q2, hq2⟩
      simp [ht, hq2]
    · simp [ht]
  · rw [if_neg hany]
    unfold tsLookup
    rw [List.find?_append]
    by_cases ht : t = c.timestamp
    · have hnone : m.find? (fun p => p.timestamp == t) = none := by
        rw [List.find?_eq_none]
        intro x hx
        have hx2 := (List.any_eq_false.mp (Bool.eq_false_iff.mpr hany)) x hx
        simp only [beq_iff_eq] at hx2 ⊢
        omega
      have hsingle : [c].find? (fun p => p.timestamp == t) = some c := by
        have : (c.timestamp == t) = true := by simp [beq_iff_eq]; omega
        simp [List.find?_singleton, this]
      rw [hnone, hsingle, if_pos ht]
      simp
    · have hne : ¬ (c.timestamp == t) = true := by simp [beq_iff_eq]; omega
      have hsingle : [c].find? (fun p => p.timestamp == t) = none := by
        simp [List.find?_singleton, hne]
      rw [hsingle, if_neg ht, Option.or_none]

theorem tsKeys_nil : tsKeys [] = [] := rfl

/-- Map.set keeps the key sequence when the key is present and appends
the new key otherwise. -/
theorem tsKeys_mapSet (m : List PricePoint) (c : PricePoint) :
    tsKeys (mapSet m c) =
      if (m.any (fun p => p.timestamp == c.timestamp)) = true then tsKeys m
      else tsKeys m ++ [c.timestamp] := by
  unfold mapSet
  by_cases hany : (m.any (fun p => p.timestamp == c.timestamp)) = true
  · rw [if_pos hany, if_pos hany]
    unfold tsKeys
    rw [List.map_map]
    refine List.map_congr_left (fun p _ => ?_)
    by_cases hp : p.timestamp = c.timestamp
    · simp [Function.comp, hp]
    · simp [Function.comp, hp]
  · rw [if_neg hany, if_neg hany]
    simp [tsKeys]

/-- Map.set preserves uniqueness of the keys. -/
theorem nodup_tsKeys_mapSet (m : List PricePoint) (c : PricePoint)
    (h : (tsKeys m).Nodup) : (tsKeys (mapSet m c)).Nodup := by
  rw [tsKeys_mapSet]
  by_cases hany : (m.any (fun p => p.timestamp == c.timestamp)) = true
  · simpa [hany] using h
  · have hnot : c.timestamp ∉ tsKeys m := by
      intro hmem
      rcases List.mem_map.mp hmem with ⟨q, hq, hqt⟩
      have := (List.any_eq_false.mp (Bool.eq_false_iff.mpr hany)) q hq
      simp [beq_iff_eq, hqt] at this
    simp only [hany, if_false, if_neg]
    simp [List.nodup_append, h, hnot]

/-- Folding a batch of Map.set calls preserves uniqueness of the keys. -/
theorem nodup_tsKeys_foldl (l : List PricePoint) :
    ∀ m, (tsKeys m).Nodup → (tsKeys (l.foldl mapSet m)).Nodup := by
  induction l with
  | nil => intro m h; simpa using h
  | cons c l ih =>
    intro m h
    exact ih (mapSet m c) (nodup_tsKeys_mapSet m c h)

theorem lastWrite_nil (t : Int) : lastWrite [] t = none := rfl

theorem lastWrite_cons (c : PricePoint) (l : List PricePoint) (t : Int) :
    lastWrite (c :: l) t =
      (lastWrite l t).or (if (c.timestamp == t) = true then some c else none) := by
  unfold lastWrite
  rw [List.reverse_cons, List.find?_append]
  by_cases hc : (c.timestamp == t) = true <;> simp [List.find?, hc]

/-- The lookup after folding a batch of Map.set calls: the last write of
the batch for the key wins, otherwise the original map answers. -/
theorem tsLookup_foldl (l : List PricePoint) :
    ∀ (m : List PricePoint) (t : Int),
      tsLookup (l.foldl mapSet m) t = (lastWrite l t).or (tsLookup m t) := by
  induction l with
  | nil => intro m t; simp [lastWrite_nil]
  | cons c l ih =>
    intro m t
    rw [List.foldl_cons, ih, tsLookup_mapSet, lastWrite_cons, Option.or_assoc]
    by_cases ht : t = c.timestamp
    · have : (c.timestamp == t) = true := by simp [beq_iff_eq, ht]
      simp [ht, this]
    · have : ¬ (c.timestamp == t) = true := by simp [beq_iff_eq]; omega
      simp [ht, this]

/-- Folding Map.set over fresh keys is plain appending. -/
theorem foldl_mapSet_append (l : List PricePoint) :
    ∀ m, (tsKeys (m ++ l)).Nodup → l.foldl mapSet m = m ++ l := by
  induction l with
  | nil => intro m _; simp
  | cons c l ih =>
    intro m h
    have hkeys : tsKeys (m ++ c :: l) = tsKeys m ++ (c.timestamp :: tsKeys l) := by
      simp [tsKeys]
    have hnot : c.timestamp ∉ tsKeys m := by
      rw [hkeys] at h
      rcases List.nodup_append.mp h with ⟨_, _, hdisj⟩
      intro hmem
      exact hdisj hmem (by simp)
    have hany : (m.any (fun p => p.timestamp == c.timestamp)) = false := by
      rw [List.any_eq_false]
      intro p hp
      simp only [beq_iff_eq]
      intro hpc
      exact hnot (List.mem_map.mpr ⟨p, hp, hpc⟩)
    have hset : mapSet m c = m ++ [c] := by
      unfold mapSet
      simp [hany]
    rw [List.foldl_cons, hset, ih (m ++ [c]) (by simpa using h)]
    simp

/-- Building the keyed map from a series with unique timestamps returns
the series itself. -/
theorem buildMap_eq_self (S : List PricePoint) (h : (tsKeys S).Nodup) :
    buildMap S = S := by
  unfold buildMap
  simpa using foldl_mapSet_append S [] (by simpa using h)

/-- In a series with unique timestamps, elements sharing a timestamp are
equal. -/
theorem eq_of_ts_eq {m : List PricePoint} (hnd : (tsKeys m).Nodup)
    {p q : PricePoint} (hp : p ∈ m) (hq : q ∈ m)
    (h : p.timestamp = q.timestamp) : p = q :=
  List.inj_on_of_nodup_map hnd hp hq h

/-- Characterization of the timestamp lookup under unique keys. -/
theorem tsLookup_eq_some_iff {m : List PricePoint} (hnd : (tsKeys m).Nodup)
    {t : Int} {p : PricePoint} :
    tsLookup m t = some p ↔ p ∈ m ∧ p.timestamp = t := by
  constructor
  · intro h
    refine ⟨List.mem_of_find?_eq_some h, ?_⟩
    simpa [beq_iff_eq] using List.find?_some h
  · rintro ⟨hmem, ht⟩
    have hsome : (tsLookup m t).isSome := by
      unfold tsLookup
      exact List.find?_isSome.mpr ⟨p, hmem, by simp [beq_iff_eq, ht]⟩
    rcases Option.isSome_iff_exists.mp hsome with ⟨q, hq⟩
    have hqm : q ∈ m := List.mem_of_find?_eq_some hq
    have hqt : q.timestamp = t := by simpa [beq_iff_eq] using List.find?_some hq
    rw [hq, eq_of_ts_eq hnd hqm hmem (by omega)]

/-- The timestamp lookup is invariant under permutation when keys are
unique. -/
theorem tsLookup_of_perm {m1 m2 : List PricePoint} (h : m1.Perm m2)
    (hnd : (tsKeys m1).Nodup) (t : Int) : tsLookup m1 t = tsLookup m2 t := by
  have hnd2 : (tsKeys m2).Nodup := (List.Perm.nodup_iff (h.map _)).mp hnd
  cases hfind : tsLookup m1 t with
  | none =>
    symm
    unfold tsLookup at hfind ⊢
    rw [List.find?_eq_none] at hfind ⊢
    intro x hx
    exact hfind x (h.mem_iff.mpr hx)
  | some p =>
    rcases (tsLookup_eq_some_iff hnd).mp hfind with ⟨hmem, ht⟩
    exact ((tsLookup_eq_some_iff hnd2).mpr ⟨h.mem_iff.mp hmem, ht⟩).symm

/-- Two keyed maps with unique keys and the same lookup function are
permutations of each other. -/
theorem perm_of_tsLookup_eq {m1 m2 : List PricePoint}
    (h1 : (tsKeys m1).Nodup) (h2 : (tsKeys m2).Nodup)
    (h : ∀ t, tsLookup m1 t = tsLookup m2 t) : m1.Perm m2 := by
  have hd1 : m1.Nodup := h1.of_map _
  have hd2 : m2.Nodup := h2.of_map _
  rw [List.perm_ext_iff_of_nodup hd1 hd2]
  intro p
  constructor
  · intro hp
    have := (tsLookup_eq_some_iff h1).mpr ⟨hp, rfl⟩
    rw [h p.timestamp] at this
    exact ((tsLookup_eq_some_iff h2).mp this).1
  · intro hp
    have := (tsLookup_eq_some_iff h2).mpr ⟨hp, rfl⟩
    rw [← h p.timestamp] at this
    exact ((tsLookup_eq_some_iff h1).mp this).1

/-- Strict ascent implies unique timestamps. -/
theorem nodup_tsKeys_of_strictAscending {l : List PricePoint}
    (h : strictAscending l) : (tsKeys l).Nodup := by
  unfold tsKeys
  rw [List.Nodup, List.pairwise_map]
  exact h.imp (fun hab => ne_of_lt hab)

/-- Sorting a list with unique timestamps by the weak timestamp order
yields a strictly ascending list. -/
theorem strictAscending_insertionSort (m : List PricePoint)
    (hnd : (tsKeys m).Nodup) : strictAscending (List.insertionSort tsLe m) := by
  have hsorted : (List.insertionSort tsLe m).Pairwise tsLe :=
    List.sorted_insertionSort tsLe m
  have hperm : (List.insertionSort tsLe m).Perm m := List.perm_insertionSort tsLe m
  have hnd2 : (tsKeys (List.insertionSort tsLe m)).Nodup :=
    (List.Perm.nodup_iff (hperm.map _)).mpr hnd
  have hne : (List.insertionSort tsLe m).Pairwise
      (fun a b => a.timestamp ≠ b.timestamp) := by
    unfold tsKeys at hnd2
    rw [List.Nodup, List.pairwise_map] at hnd2
    exact hnd2
  exact (hsorted.and hne).imp (fun hab => lt_of_le_of_ne hab.1 hab.2)

/-- Two keyed maps with unique keys and the same lookup function sort to
the same series. -/
theorem insertionSort_eq_of_tsLookup_eq {m1 m2 : List PricePoint}
    (h1 : (tsKeys m1).Nodup) (h2 : (tsKeys m2).Nodup)
    (h : ∀ t, tsLookup m1 t = tsLookup m2 t) :
    List.insertionSort tsLe m1 = List.insertionSort tsLe m2 := by
  have hperm : (List.insertionSort tsLe m1).Perm (List.insertionSort tsLe m2) :=
    ((List.perm_insertionSort tsLe m1).trans (perm_of_tsLookup_eq h1 h2 h)).trans
      (List.perm_insertionSort tsLe m2).symm
  exact List.eq_of_perm_of_sorted hperm
    (strictAscending_insertionSort m1 h1) (strictAscending_insertionSort m2 h2)

/-- The keys of the overlay map of any merge are unique. -/
theorem nodup_tsKeys_candleMap (prev incoming : List PricePoint) :
    (tsKeys (candleMap prev incoming)).Nodup := by
  unfold candleMap buildMap
  exact nodup_tsKeys_foldl incoming _ (nodup_tsKeys_foldl prev [] (by simp [tsKeys]))

/-- Any merge result is strictly ascending with unique timestamps. -/
theorem strictAscending_mergeCandles (prev incoming : List PricePoint) :
    strictAscending (mergeCandles prev incoming) :=
  strictAscending_insertionSort _ (nodup_tsKeys_candleMap prev incoming)

theorem nodup_tsKeys_mergeCandles (prev incoming : List PricePoint) :
    (tsKeys (mergeCandles prev incoming)).Nodup :=
  nodup_tsKeys_of_strictAscending (strictAscending_mergeCandles prev incoming)

/-- Lookup through a merge: an element of the batch always wins over the
existing series, and the last write of the batch wins within it. -/
theorem tsLookup_mergeCandles (prev incoming : List PricePoint) (t : Int) :
    tsLookup (mergeCandles prev incoming) t =
      (lastWrite incoming t).or (tsLookup (buildMap prev) t) := by
  have hperm : (mergeCandles prev incoming).Perm (candleMap prev incoming) :=
    List.perm_insertionSort tsLe _
  rw [tsLookup_of_perm hperm (nodup_tsKeys_mergeCandles prev incoming) t]
  unfold candleMap
  exact tsLookup_foldl incoming (buildMap prev) t

/-- Merging an empty batch into a strictly ascending series returns the
series unchanged. -/
theorem mergeCandles_empty (S : List PricePoint) (hS : strictAscending S) :
    mergeCandles S [] = S := by
  have hnd := nodup_tsKeys_of_strictAscending hS
  have hbuild : buildMap S = S := buildMap_eq_self S hnd
  have hmap : candleMap S [] = S := by
    unfold candleMap
    simpa using hbuild
  unfold mergeCandles
  rw [hmap]
  exact List.Sorted.insertionSort_eq (hS.imp (fun h => le_of_lt h))

/-- Merging a strictly ascending series into itself returns it
unchanged. -/
theorem mergeCandles_self (S : List PricePoint) (hS : strictAscending S) :
    mergeCandles S S = S := by
  have hnd := nodup_tsKeys_of_strictAscending hS
  have hbuild : buildMap S = S := buildMap_eq_self S hnd
  have hlook : ∀ t, tsLookup (candleMap S S) t = tsLookup S t := by
    intro t
    have e1 : tsLookup (candleMap S S) t =
        (lastWrite S t).or (tsLookup (buildMap S) t) := by
      unfold candleMap
      exact tsLookup_foldl S _ t
    rw [e1, hbuild]
    cases hlast : lastWrite S t with
    | none => simp
    | some p =>
      unfold lastWrite at hlast
      have hmem : p ∈ S := List.mem_reverse.mp (List.mem_of_find?_eq_some hlast)
      have hpt : p.timestamp = t := by
        simpa [beq_iff_eq] using List.find?_some hlast
      have : tsLookup S t = some p := (tsLookup_eq_some_iff hnd).mpr ⟨hmem, hpt⟩
      simp [this]
  have heq := insertionSort_eq_of_tsLookup_eq (nodup_tsKeys_candleMap S S) hnd hlook
  unfold mergeCandles
  rw [heq]
  exact List.Sorted.insertionSort_eq (hS.imp (fun h => le_of_lt h))

/-- Re-merging the same batch is a no-op: the merge is idempotent in the
batch. -/
theorem mergeCandles_merge_self (A B : List PricePoint) :
    mergeCandles (mergeCandles A B) B = mergeCandles A B := by
  have hndN : (tsKeys (candleMap A B)).Nodup := nodup_tsKeys_candleMap A B
  have hndM : (tsKeys (mergeCandles A B)).Nodup := nodup_tsKeys_mergeCandles A B
  have hpermM : (mergeCandles A B).Perm (candleMap A B) :=
    List.perm_insertionSort tsLe _
  have hbuildM : buildMap (mergeCandles A B) = mergeCandles A B :=
    buildMap_eq_self _ hndM
  have hlook : ∀ t, tsLookup (candleMap (mergeCandles A B) B) t =
      tsLookup (candleMap A B) t := by
    intro t
    have e1 : tsLookup (candleMap (mergeCandles A B) B) t =
        (lastWrite B t).or (tsLookup (buildMap (mergeCandles A B)) t) := by
      unfold candleMap
      exact tsLookup_foldl B _ t
    have e2 : tsLookup (candleMap A B) t =
        (lastWrite B t).or (tsLookup (buildMap A) t) := by
      unfold candleMap
      exact tsLookup_foldl B _ t
    rw [e1, hbuildM, tsLookup_of_perm hpermM hndM t, e2]
    cases lastWrite B t <;> simp
  exact insertionSort_eq_of_tsLookup_eq
    (nodup_tsKeys_candleMap (mergeCandles A B) B) hndN hlook

/-- On any timestamp present in the batch, the merged series holds the
last write of the batch for that timestamp. -/
theorem mergeCandles_lastWrite_wins (prev incoming : List PricePoint) (t : Int)
    (h : ∃ q ∈ incoming, q.timestamp = t) :
    tsLookup (mergeCandles prev incoming) t = lastWrite incoming t := by
  rw [tsLookup_mergeCandles]
  have hsome : (lastWrite incoming t).isSome := by
    unfold lastWrite
    refine List.find?_isSome.mpr ?_
    rcases h with ⟨q, hq, hqt⟩
    exact ⟨q, List.mem_reverse.mpr hq, by simp [beq_iff_eq, hqt]⟩
  rcases Option.isSome_iff_exists.mp hsome with ⟨p, hp⟩
  simp [hp]

/-- C1: the timestamp-keyed merge of an incoming batch into an existing
series produces a strictly ascending, timestamp-unique series in which
the incoming element (more precisely its last write) wins on any
timestamp collision; merging the empty batch into a series, merging a
series into itself, and re-merging the same batch are all identities;
and the concrete scenario merging the batch with timestamps 200 and 300
into the series with timestamps 100 and 200 yields the three candles
100, 200 (updated) and 300. -/
theorem claim_C1_candle_merge (S A B : List PricePoint)
    (hS : strictAscending S) (hA : strictAscending A) :
    strictAscending (mergeCandles A B) ∧
    (tsKeys (mergeCandles A B)).Nodup ∧
    (∀ t, (∃ q ∈ B, q.timestamp = t) →
      tsLookup (mergeCandles A B) t = lastWrite B t) ∧
    mergeCandles S [] = S ∧
    mergeCandles S S = S ∧
    mergeCandles (mergeCandles A B) B = mergeCandles A B ∧
    mergeCandles [pp 100 10, pp 200 20] [pp 200 21, pp 300 30] =
      [pp 100 10, pp 200 21, pp 300 30] := by
  refine ⟨strictAscending_mergeCandles A B, nodup_tsKeys_mergeCandles A B,
    fun t ht => mergeCandles_lastWrite_wins A B t ht,
    mergeCandles_empty S hS, mergeCandles_self S hS,
    mergeCandles_merge_self A B, ?_⟩
  · have _ := hA
    decide

/-- Witness for C1 at the concrete series of the scenario. -/
theorem claim_C1_candle_merge_witness :
    strictAscending [pp 100 10, pp 200 20] ∧
    (strictAscending (mergeCandles [pp 100 10, pp 200 20] [pp 200 21, pp 300 30]) ∧
    (tsKeys (mergeCandles [pp 100 10, pp 200 20] [pp 200 21, pp 300 30])).Nodup ∧
    (∀ t, (∃ q ∈ [pp 200 21, pp 300 30], q.timestamp = t) →
      tsLookup (mergeCandles [pp 100 10, pp 200 20] [pp 200 21, pp 300 30]) t =
        lastWrite [pp 200 21, pp 300 30] t) ∧
    mergeCandles [pp 100 10, pp 200 20] [] = [pp 100 10, pp 200 20] ∧
    mergeCandles [pp 100 10, pp 200 20] [pp 100 10, pp 200 20] =
      [pp 100 10, pp 200 20] ∧
    mergeCandles (mergeCandles [pp 100 10, pp 200 20] [pp 200 21, pp 300 30])
        [pp 200 21, pp 300 30] =
      mergeCandles [pp 100 10, pp 200 20] [pp 200 21, pp 300 30] ∧
    mergeCandles [pp 100 10, pp 200 20] [pp 200 21, pp 300 30] =
      [pp 100 10, pp 200 21, pp 300 30]) :=
  ⟨by decide,
    claim_C1_candle_merge [pp 100 10, pp 200 20] [pp 100 10, pp 200 20]
      [pp 200 21, pp 300 30] (by decide) (by decide)⟩

/-- Folding addition of mapped values equals adding the sum of the map. -/
theorem foldl_add_eq {α β : Type} [AddCommMonoid α] (l : List β) (f : β → α) :
    ∀ a : α, l.foldl (fun s j => s + f j) a = a + (l.map f).sum := by
  induction l with
  | nil => intro a; simp
  | cons x l ih => intro a; simp [ih, add_assoc]

/-- The inner loop of calculateSMA reads the window of the last n prices
ending at index i, summed in reverse order. -/
theorem sum_range_getD {α : Type} [Field α] (prices : List α) (i : Nat)
    (hi : i < prices.length) :
    ∀ n, n ≤ i + 1 →
      ((List.range n).map (fun j => prices.getD (i - j) 0)).sum =
        ((prices.drop (i + 1 - n)).take n).sum := by
  intro n
  induction n with
  | zero => simp
  | succ n ih =>
    intro hn
    have h1 : i + 1 - (n + 1) = i - n := by omega
    have h2 : i - n + 1 = i + 1 - n := by omega
    rw [List.range_succ, List.map_append, List.sum_append, h1,
      List.drop_eq_getElem_cons (show i - n < prices.length by omega),
      List.take_succ_cons, List.sum_cons]
    simp only [h2]
    rw [ih (by omega)]
    simp only [List.map_cons, List.map_nil, List.sum_cons, List.sum_nil, add_zero]
    rw [List.getD_eq_getElem _ _ (show i - n < prices.length by omega), add_comm]

theorem calculateSMA_length {α : Type} [Field α] (prices : List α) (period : Nat) :
    (calculateSMA prices period).length = prices.length := by
  simp [calculateSMA]

/-- Entry i of calculateSMA: none below period - 1, else the window
mean. -/
theorem calculateSMA_getD {α : Type} [Field α] (prices : List α) (period i : Nat)
    (hi : i < prices.length) :
    (calculateSMA prices period).getD i none =
      if i < period - 1 then none else some (windowMean prices period i) := by
  unfold calculateSMA windowMean
  rw [List.getD_eq_getElem?_getD, List.getElem?_eq_getElem (by simpa using hi)]
  simp only [Option.getD_some, List.getElem_map, List.getElem_range]
  by_cases hlt : i < period - 1
  · simp [hlt]
  · rw [if_neg hlt, if_neg hlt]
    congr 1
    rw [foldl_add_eq, zero_add, sum_range_getD prices i hi period (by omega)]

/-- C3: calculateSMA preserves the length of the input; entry i is
undefined exactly below index period - 1 and otherwise the arithmetic
mean of the window of the last period prices ending at i; and the
concrete scenario on [1, 2, 3, 4, 5] with period 3 yields
[-, -, 2, 3, 4]. -/
theorem claim_C3_sma (S : List Rat) (p : Nat) (hp : 0 < p) :
    (calculateSMA S p).length = S.length ∧
    (∀ i, i < S.length →
      (calculateSMA S p).getD i none =
        if i < p - 1 then none else some (windowMean S p i)) ∧
    calculateSMA ([1, 2, 3, 4, 5] : List Rat) 3 =
      [none, none, some 2, some 3, some 4] := by
  refine ⟨calculateSMA_length S p, fun i hi => calculateSMA_getD S p i hi, ?_⟩
  · have _ := hp
    norm_num [calculateSMA, List.range_succ]

/-- Witness for C3 at the series of the scenario with period 3. -/
theorem claim_C3_sma_witness :
    0 < 3 ∧
    ((calculateSMA ([1, 2, 3, 4, 5] : List Rat) 3).length =
      ([1, 2, 3, 4, 5] : List Rat).length ∧
    (∀ i, i < ([1, 2, 3, 4, 5] : List Rat).length →
      (calculateSMA ([1, 2, 3, 4, 5] : List Rat) 3).getD i none =
        if i < 3 - 1 then none
        else some (windowMean ([1, 2, 3, 4, 5] : List Rat) 3 i)) ∧
    calculateSMA ([1, 2, 3, 4, 5] : List Rat) 3 =
      [none, none, some 2, some 3, some 4]) :=
  ⟨by decide, claim_C3_sma [1, 2, 3, 4, 5] 3 (by decide)⟩

/-- One more loop iteration appends exactly one entry. -/
theorem emaFold_succ {α : Type} [Field α] (prices : List α) (period n : Nat) :
    emaFold prices period (n + 1) =
      emaFold prices period n ++
        [emaNext prices period (emaFold prices period n) n] := by
  unfold emaFold
  rw [List.range_succ, List.foldl_append]
  simp

theorem emaFold_length {α : Type} [Field α] (prices : List α) (period : Nat) :
    ∀ n, (emaFold prices period n).length = n := by
  intro n
  induction n with
  | zero => rfl
  | succ n ih => rw [emaFold_succ]; simp [ih]

/-- Entry k of the loop state is fixed from the iteration that pushed
it: it equals the value computed at iteration k from the state of that
moment. -/
theorem emaFold_getD {α : Type} [Field α] (prices : List α) (period : Nat) :
    ∀ n k, k < n →
      (emaFold prices period n).getD k none =
        emaNext prices period (emaFold prices period k) k := by
  intro n
  induction n with
  | zero => intro k hk; omega
  | succ n ih =>
    intro k hk
    rw [emaFold_succ]
    by_cases hkn : k < n
    · rw [List.getD_append _ _ _ _ (by rw [emaFold_length]; omega)]
      exact ih k hkn
    · have hk2 : k = n := by omega
      subst hk2
      rw [List.getD_append_right _ _ _ _ (by rw [emaFold_length])]
      rw [emaFold_length]
      simp

theorem calculateEMA_length {α : Type} [Field α] (prices : List α) (period : Nat) :
    (calculateEMA prices period).length = prices.length := by
  unfold calculateEMA
  exact emaFold_length prices period prices.length

/-- C4: calculateEMA preserves the length of the input; entry i is
undefined below index period - 1; at index period - 1 it equals the SMA
entry there; and above it, it is obtained from the previous entry by the
recurrence with multiplier k = 2 / (period + 1), an undefined previous
entry giving an undefined current entry. -/
theorem claim_C4_ema (S : List Rat) (p : Nat) (hp : 0 < p) :
    (calculateEMA S p).length = S.length ∧
    (∀ i, i < S.length → i < p - 1 → (calculateEMA S p).getD i none = none) ∧
    (p - 1 < S.length →
      (calculateEMA S p).getD (p - 1) none =
        (calculateSMA S p).getD (p - 1) none) ∧
    (∀ i, i < S.length → p - 1 < i →
      (calculateEMA S p).getD i none =
        ((calculateEMA S p).getD (i - 1) none).map
          (fun previousEMA =>
            S.getD i 0 * (2 / ((p : Rat) + 1)) +
              previousEMA * (1 - 2 / ((p : Rat) + 1)))) := by
  have _ := hp
  refine ⟨calculateEMA_length S p, ?_, ?_, ?_⟩
  · intro i hi hilt
    unfold calculateEMA
    rw [emaFold_getD S p S.length i hi]
    unfold emaNext
    rw [if_pos hilt]
  · intro hlen
    unfold calculateEMA
    rw [emaFold_getD S p S.length (p - 1) hlen]
    unfold emaNext
    rw [if_neg (by omega), if_pos rfl]
    unfold calculateSMA
    rw [List.getD_eq_getElem?_getD, List.getElem?_eq_getElem (by simpa using hlen)]
    simp only [Option.getD_some, List.getElem_map, List.getElem_range]
    rw [if_neg (by omega)]
  · intro i hi hgt
    unfold calculateEMA
    have e1 : (emaFold S p i).getD (i - 1) none =
        (emaFold S p S.length).getD (i - 1) none := by
      rw [emaFold_getD S p i (i - 1) (by omega),
        emaFold_getD S p S.length (i - 1) (by omega)]
    rw [emaFold_getD S p S.length i hi]
    unfold emaNext
    rw [if_neg (by omega), if_neg (by omega), e1]
    cases (emaFold S p S.length).getD (i - 1) none with
    | none => simp
    | some v => simp

/-- Witness for C4 at the series [1, 2, 3, 4, 5] with period 3. -/
theorem claim_C4_ema_witness :
    0 < 3 ∧
    ((calculateEMA ([1, 2, 3, 4, 5] : List Rat) 3).length =
      ([1, 2, 3, 4, 5] : List Rat).length ∧
    (∀ i, i < ([1, 2, 3, 4, 5] : List Rat).length → i < 3 - 1 →
      (calculateEMA ([1, 2, 3, 4, 5] : List Rat) 3).getD i none = none) ∧
    (3 - 1 < ([1, 2, 3, 4, 5] : List Rat).length →
      (calculateEMA ([1, 2, 3, 4, 5] : List Rat) 3).getD (3 - 1) none =
        (calculateSMA ([1, 2, 3, 4, 5] : List Rat) 3).getD (3 - 1) none) ∧
    (∀ i, i < ([1, 2, 3, 4, 5] : List Rat).length → 3 - 1 < i →
      (calculateEMA ([1, 2, 3, 4, 5] : List Rat) 3).getD i none =
        ((calculateEMA ([1, 2, 3, 4, 5] : List Rat) 3).getD (i - 1) none).map
          (fun previousEMA =>
            ([1, 2, 3, 4, 5] : List Rat).getD i 0 * (2 / ((3 : Rat) + 1)) +
              previousEMA * (1 - 2 / ((3 : Rat) + 1))))) :=
  ⟨by decide, claim_C4_ema [1, 2, 3, 4, 5] 3 (by decide)⟩

/-- Entry of a sequence built by mapping over the index range. -/
theorem getD_map_range {β : Type} (f : Nat → Option β) (n i : Nat) (hi : i < n) :
    ((List.range n).map f).getD i none = f i := by
  rw [List.getD_eq_getElem?_getD, List.getElem?_eq_getElem (by simpa using hi)]
  simp

/-- Out of range, the entry defaults to none. -/
theorem getD_map_range_none {β : Type} (f : Nat → Option β) (n i : Nat) (hi : n ≤ i) :
    ((List.range n).map f).getD i none = none := by
  rw [List.getD_eq_getElem?_getD, List.getElem?_eq_none (by simpa using hi)]
  rfl

/-- On a nonempty window the implemented standard deviation is the
population standard deviation of the spec: deviations from the mean,
squared, averaged over N, square-rooted. -/
theorem calculateStandardDeviation_eq_popStdDev (w : List ℝ) (hw : w ≠ []) :
    calculateStandardDeviation w = popStdDev w := by
  have hlen : w.length ≠ 0 := by simpa [List.length_eq_zero] using hw
  have h1 : w.foldl (fun sum val => sum + val) 0 = w.sum := by
    simpa using foldl_add_eq w (fun v => v) 0
  have h2 : ∀ g : ℝ → ℝ, (w.map g).foldl (fun sum val => sum + val) 0 = (w.map g).sum := by
    intro g
    simpa using foldl_add_eq (w.map g) (fun v => v) 0
  simp only [calculateStandardDeviation, popStdDev]
  rw [if_neg hlen, h1, h2]

/-- The middle band is exactly the SMA series (assignment in the
source). -/
theorem bollinger_middle_eq (S : List ℝ) (p : Nat) (m : ℝ) :
    (calculateBollingerBands S p m).middle = calculateSMA S p := rfl

theorem bollinger_upper_eq (S : List ℝ) (p : Nat) (m : ℝ) :
    (calculateBollingerBands S p m).upper = (List.range S.length).map (fun i =>
      if i < p - 1 then none
      else match (calculateSMA S p).getD i none with
        | none => none
        | some middleValue =>
            some (middleValue +
              calculateStandardDeviation ((S.drop (i + 1 - p)).take (i + 1 - (i + 1 - p))) *
              m)) := rfl

theorem bollinger_lower_eq (S : List ℝ) (p : Nat) (m : ℝ) :
    (calculateBollingerBands S p m).lower = (List.range S.length).map (fun i =>
      if i < p - 1 then none
      else match (calculateSMA S p).getD i none with
        | none => none
        | some middleValue =>
            some (middleValue -
              calculateStandardDeviation ((S.drop (i + 1 - p)).take (i + 1 - (i + 1 - p))) *
              m)) := rfl

/-- At every defined index the bands are the SMA plus and minus the
population standard deviation of the window, scaled by the
multiplier. -/
theorem bollinger_bands_at (S : List ℝ) (p : Nat) (m : ℝ) (i : Nat)
    (hp : 0 < p) (hi : i < S.length) (hge : p - 1 ≤ i) :
    (calculateBollingerBands S p m).upper.getD i none =
      some (windowMean S p i + popStdDev ((S.drop (i + 1 - p)).take p) * m) ∧
    (calculateBollingerBands S p m).middle.getD i none = some (windowMean S p i) ∧
    (calculateBollingerBands S p m).lower.getD i none =
      some (windowMean S p i - popStdDev ((S.drop (i + 1 - p)).take p) * m) := by
  have hmid : (calculateSMA S p).getD i none = some (windowMean S p i) := by
    rw [calculateSMA_getD S p i hi, if_neg (by omega)]
  have hidx2 : i + 1 - (i + 1 - p) = p := by omega
  have hwin : (S.drop (i + 1 - p)).take p ≠ [] := by
    have hl : ((S.drop (i + 1 - p)).take p).length = p := by
      simp only [List.length_take, List.length_drop]
      omega
    intro hnil
    rw [hnil] at hl
    simp at hl
    omega
  have hsd : calculateStandardDeviation ((S.drop (i + 1 - p)).take (i + 1 - (i + 1 - p))) =
      popStdDev ((S.drop (i + 1 - p)).take p) := by
    rw [hidx2]
    exact calculateStandardDeviation_eq_popStdDev _ hwin
  refine ⟨?_, ?_, ?_⟩
  · rw [bollinger_upper_eq, getD_map_range _ _ _ hi, if_neg (by omega), hmid, hsd]
  · rw [bollinger_middle_eq]
    exact hmid
  · rw [bollinger_lower_eq, getD_map_range _ _ _ hi, if_neg (by omega), hmid, hsd]

/-- Wherever the upper band is defined, the three bands are defined
together and are symmetric around the middle band. -/
theorem bollinger_symmetric (S : List ℝ) (p : Nat) (m : ℝ) (i : Nat)
    (u mid lo : ℝ)
    (hu : (calculateBollingerBands S p m).upper.getD i none = some u)
    (hm : (calculateBollingerBands S p m).middle.getD i none = some mid)
    (hl : (calculateBollingerBands S p m).lower.getD i none = some lo) :
    u - mid = mid - lo := by
  have hi : i < S.length := by
    by_contra hge
    rw [bollinger_upper_eq, getD_map_range_none _ _ _ (by omega)] at hu
    exact Option.noConfusion hu
  rw [bollinger_upper_eq, getD_map_range _ _ _ hi] at hu
  rw [bollinger_lower_eq, getD_map_range _ _ _ hi] at hl
  rw [bollinger_middle_eq] at hm
  by_cases hlt : i < p - 1
  · rw [if_pos hlt] at hu
    exact Option.noConfusion hu
  · rw [if_neg hlt] at hu
    rw [if_neg hlt] at hl
    cases hsma : (calculateSMA S p).getD i none with
    | none =>
      rw [hsma] at hu
      exact Option.noConfusion hu
    | some mv =>
      rw [hsma] at hu hl
      rw [hsma] at hm
      have hu2 := Option.some_injective _ hu
      have hl2 := Option.some_injective _ hl
      have hm2 := Option.some_injective _ hm
      rw [← hu2, ← hl2, ← hm2]
      ring

/-- C5: the middle band equals the SMA series; at every index where the
middle band is defined the upper and lower bands are the middle plus and
minus the population standard deviation of the window times the
multiplier, and the bands are symmetric around the middle. -/
theorem claim_C5_bollinger (S : List ℝ) (p : Nat) (m : ℝ) (hp : 0 < p) :
    (calculateBollingerBands S p m).middle = calculateSMA S p ∧
    (∀ i, i < S.length → p - 1 ≤ i →
      (calculateBollingerBands S p m).upper.getD i none =
        some (windowMean S p i + popStdDev ((S.drop (i + 1 - p)).take p) * m) ∧
      (calculateBollingerBands S p m).middle.getD i none =
        some (windowMean S p i) ∧
      (calculateBollingerBands S p m).lower.getD i none =
        some (windowMean S p i - popStdDev ((S.drop (i + 1 - p)).take p) * m)) ∧
    (∀ i u mid lo,
      (calculateBollingerBands S p m).upper.getD i none = some u →
      (calculateBollingerBands S p m).middle.getD i none = some mid →
      (calculateBollingerBands S p m).lower.getD i none = some lo →
      u - mid = mid - lo) :=
  ⟨bollinger_middle_eq S p m,
    fun i hi hge => bollinger_bands_at S p m i hp hi hge,
    fun i u mid lo hu hm hl => bollinger_symmetric S p m i u mid lo hu hm hl⟩

/-- Witness for C5 at the three-element series with period 2 and
multiplier 2. -/
theorem claim_C5_bollinger_witness :
    0 < 2 ∧
    ((calculateBollingerBands ([1, 1, 1] : List ℝ) 2 2).middle =
      calculateSMA ([1, 1, 1] : List ℝ) 2 ∧
    (∀ i, i < ([1, 1, 1] : List ℝ).length → 2 - 1 ≤ i →
      (calculateBollingerBands ([1, 1, 1] : List ℝ) 2 2).upper.getD i none =
        some (windowMean ([1, 1, 1] : List ℝ) 2 i +
          popStdDev ((([1, 1, 1] : List ℝ).drop (i + 1 - 2)).take 2) * 2) ∧
      (calculateBollingerBands ([1, 1, 1] : List ℝ) 2 2).middle.getD i none =
        some (windowMean ([1, 1, 1] : List ℝ) 2 i) ∧
      (calculateBollingerBands ([1, 1, 1] : List ℝ) 2 2).lower.getD i none =
        some (windowMean ([1, 1, 1] : List ℝ) 2 i -
          popStdDev ((([1, 1, 1] : List ℝ).drop (i + 1 - 2)).take 2) * 2)) ∧
    (∀ i u mid lo,
      (calculateBollingerBands ([1, 1, 1] : List ℝ) 2 2).upper.getD i none = some u →
      (calculateBollingerBands ([1, 1, 1] : List ℝ) 2 2).middle.getD i none = some mid →
      (calculateBollingerBands ([1, 1, 1] : List ℝ) 2 2).lower.getD i none = some lo →
      u - mid = mid - lo)) :=
  ⟨by decide, claim_C5_bollinger [1, 1, 1] 2 2 (by decide)⟩

/-- Folding Map.set calls never shrinks the map. -/
theorem length_le_foldl_mapSet (l : List PricePoint) :
    ∀ m, m.length ≤ (l.foldl mapSet m).length := by
  induction l with
  | nil => intro m; simp
  | cons c l ih =>
    intro m
    refine le_trans ?_ (ih (mapSet m c))
    unfold mapSet
    by_cases h : (m.any fun p => p.timestamp == c.timestamp) = true
    · simp [h]
    · simp [h]

/-- C9: when the existing history is empty or absent while a non-empty
candle batch arrives, the setHistoryData updater returns the previous
state unchanged, discarding the batch, although the merge of that batch
into the empty series would have been non-empty. -/
theorem claim_C9_empty_history_guard (B : List PricePoint) (hB : B ≠ []) :
    setHistoryDataUpdater B none = none ∧
    setHistoryDataUpdater B (some []) = some [] ∧
    mergeCandles [] B ≠ [] := by
  refine ⟨rfl, rfl, ?_⟩
  cases B with
  | nil => exact absurd rfl hB
  | cons c B2 =>
    intro hcontra
    have hlen : (mergeCandles [] (c :: B2)).length = (candleMap [] (c :: B2)).length :=
      (List.perm_insertionSort tsLe _).length_eq
    have hone : (mapSet [] c).length = 1 := by
      unfold mapSet
      simp
    have h1 : 1 ≤ (candleMap [] (c :: B2)).length := by
      unfold candleMap buildMap
      simp only [List.foldl_nil, List.foldl_cons]
      rw [← hone]
      exact length_le_foldl_mapSet B2 (mapSet [] c)
    rw [hcontra] at hlen
    simp at hlen
    omega

/-- Witness for C9 at a one-candle batch. -/
theorem claim_C9_empty_history_guard_witness :
    [pp 200 21] ≠ ([] : List PricePoint) ∧
    (setHistoryDataUpdater [pp 200 21] none = none ∧
    setHistoryDataUpdater [pp 200 21] (some []) = some [] ∧
    mergeCandles [] [pp 200 21] ≠ []) :=
  ⟨by decide, claim_C9_empty_history_guard [pp 200 21] (by decide)⟩

/-- Values reaching the error classifiers: the four typed error classes
of services/errors.ts, a plain Error, and a non-Error value.  Every
class extends Error, so only the last constructor fails an
instanceof Error test. -/
inductive ThrownValue where
  | rateLimitError (message : String) (waitTime : Rat)
  | serverTimeoutError (message : String)
  | symbolNotFoundError (symbol : String) (message : String)
  | emptyHistoryError (symbol : String) (userMessage : String)
  | plainError (message : String)
  | notAnError
deriving DecidableEq

/-- instanceof Error discriminator. -/
def isErrorInstance : ThrownValue → Bool
  | .notAnError => false
  | _ => true

/-- instanceof RateLimitError discriminator. -/
def isRateLimitInstance : ThrownValue → Bool
  | .rateLimitError _ _ => true
  | _ => false

/-- The message property of an Error value; a non-Error carries none and
yields the empty string here. -/
def errorMessage : ThrownValue → String
  | .rateLimitError msg _ => msg
  | .serverTimeoutError msg => msg
  | .symbolNotFoundError _ msg => msg
  | .emptyHistoryError _ msg => msg
  | .plainError msg => msg
  | .notAnError => ""

/-- Character-level test that the pattern starts the list. -/
def startsWithChars : List Char → List Char → Bool
  | [], _ => true
  | _ :: _, [] => false
  | a :: as, b :: bs => a == b && startsWithChars as bs

/-- Character-level test that the pattern occurs somewhere in the
list. -/
def containsChars (pat : List Char) : List Char → Bool
  | [] => startsWithChars pat []
  | c :: rest => startsWithChars pat (c :: rest) || containsChars pat rest

/-- JS String.prototype.includes: substring occurrence. -/
def jsIncludes (s pat : String) : Bool := containsChars pat.data s.data

/-- JS String.prototype.toLowerCase, on the character data. -/
def jsToLowerCase (s : String) : String := String.mk (s.data.map Char.toLower)

/-- isRateLimitError from services/errors.ts: true on a RateLimitError
instance, and on any Error whose lowercased message includes one of the
three rate-limit markers; false on anything that is not an Error. -/
def isRateLimitError (error : ThrownValue) : Bool :=
  if isRateLimitInstance error then true
  else if isErrorInstance error then
    jsIncludes (jsToLowerCase (errorMessage error)) "rate limit" ||
      jsIncludes (jsToLowerCase (errorMessage error)) "too many requests" ||
      jsIncludes (jsToLowerCase (errorMessage error)) "429"
  else false

/-- C10: isRateLimitError holds exactly on RateLimitError instances and
on Errors whose lowercased message mentions a rate-limit marker; it is
false on every non-Error value; and the message-text path alone
triggers the classification, as the plain Error probes show. -/
theorem claim_C10_rate_limit_classification (e : ThrownValue) :
    (isRateLimitError e = true ↔
      (isRateLimitInstance e = true ∨
        (isErrorInstance e = true ∧
          (jsIncludes (jsToLowerCase (errorMessage e)) "rate limit" = true ∨
           jsIncludes (jsToLowerCase (errorMessage e)) "too many requests" = true ∨
           jsIncludes (jsToLowerCase (errorMessage e)) "429" = true)))) ∧
    (isErrorInstance e = false → isRateLimitError e = false) ∧
    isRateLimitError (.plainError "HTTP 429 Too Many Requests") = true ∧
    isRateLimitError (.plainError "Rate Limit exceeded, slow down") = true ∧
    isRateLimitError (.serverTimeoutError "Server temporarily unavailable. Retrying") = false ∧
    isRateLimitError (.rateLimitError "quota exhausted" 30) = true ∧
    isRateLimitError .notAnError = false := by
  refine ⟨?_, ?_, by decide, by decide, by decide, by decide, by decide⟩
  · cases e <;>
      simp [isRateLimitError, isRateLimitInstance, isErrorInstance, or_assoc]
  · cases e <;>
      simp [isRateLimitError, isRateLimitInstance, isErrorInstance]

/-- Witness for C10 at a plain Error carrying only message text. -/
theorem claim_C10_rate_limit_classification_witness :
    (isRateLimitError (.plainError "saw a rate limit response") = true ↔
      (isRateLimitInstance (.plainError "saw a rate limit response") = true ∨
        (isErrorInstance (.plainError "saw a rate limit response") = true ∧
          (jsIncludes (jsToLowerCase (errorMessage (.plainError "saw a rate limit response"))) "rate limit" = true ∨
           jsIncludes (jsToLowerCase (errorMessage (.plainError "saw a rate limit response"))) "too many requests" = true ∨
           jsIncludes (jsToLowerCase (errorMessage (.plainError "saw a rate limit response"))) "429" = true)))) ∧
    (isErrorInstance (.plainError "saw a rate limit response") = false →
      isRateLimitError (.plainError "saw a rate limit response") = false) ∧
    isRateLimitError (.plainError "HTTP 429 Too Many Requests") = true ∧
    isRateLimitError (.plainError "Rate Limit exceeded, slow down") = true ∧
    isRateLimitError (.serverTimeoutError "Server temporarily unavailable. Retrying") = false ∧
    isRateLimitError (.rateLimitError "quota exhausted" 30) = true ∧
    isRateLimitError .notAnError = false :=
  claim_C10_rate_limit_classification (.plainError "saw a rate limit response")

/-- Observable state of the useRateLimitRetry controller: the two React
state cells, the interval handle, the isCountingDown ref, and counters
for the deferred retry callback (still pending in the setTimeout queue,
and already executed). -/
structure RetryControllerState where
  isRateLimited : Bool
  secondsRemaining : Int
  timerActive : Bool
  isCountingDown : Bool
  pendingRetryCallbacks : Nat
  retryCallbackRuns : Nat
deriving DecidableEq

/-- The controller as first rendered: not rate limited, zero seconds,
no interval, nothing scheduled. -/
def retryIdleState : RetryControllerState :=
  ⟨false, 0, false, false, 0, 0⟩

/-- Body of the countdown effect of useRateLimitRetry: when the flag is
set with seconds remaining and no countdown already running, start the
one-second interval and mark counting. -/
def retryCountdownEffect (s : RetryControllerState) : RetryControllerState :=
  if s.isRateLimited && s.secondsRemaining > 0 && !s.isCountingDown then
    { s with timerActive := true, isCountingDown := true }
  else s

/-- startRetryCountdown(waitTimeSeconds?): clear any existing interval,
reset the counting flag, set secondsRemaining to
ceil(waitTimeSeconds ?? defaultRetryDelaySeconds) + 1 (the one-second
buffer) and raise the rate-limited flag.  The countdown effect depends
only on isRateLimited, so it re-runs after this update exactly when that
flag changed. -/
def startRetryCountdown (defaultRetryDelaySeconds : Rat)
    (waitTimeSeconds : Option Rat) (s : RetryControllerState) :
    RetryControllerState :=
  let cleared : RetryControllerState :=
    { s with timerActive := false, isCountingDown := false }
  let delaySeconds := waitTimeSeconds.getD defaultRetryDelaySeconds
  let totalDelay : Int := ⌈delaySeconds⌉ + 1
  let updated : RetryControllerState :=
    { cleared with secondsRemaining := totalDelay, isRateLimited := true }
  if s.isRateLimited == updated.isRateLimited then updated
  else retryCountdownEffect updated

/-- One firing of the one-second interval, the setInterval callback of
the countdown effect: decrement; on reaching zero clear the flag and the
interval, stop counting, and schedule the retry callback once through
setTimeout. -/
def retryTick (s : RetryControllerState) : RetryControllerState :=
  if !s.timerActive then s
  else
    let next := s.secondsRemaining - 1
    if next ≤ 0 then
      { isRateLimited := false, secondsRemaining := 0, timerActive := false,
        isCountingDown := false,
        pendingRetryCallbacks := s.pendingRetryCallbacks + 1,
        retryCallbackRuns := s.retryCallbackRuns }
    else { s with secondsRemaining := next }

/-- Drain of the task queue: callbacks scheduled by setTimeout run on
the next scheduling turn, never synchronously inside the state
update. -/
def runScheduledRetryCallbacks (s : RetryControllerState) : RetryControllerState :=
  { s with
    pendingRetryCallbacks := 0
    retryCallbackRuns := s.retryCallbackRuns + s.pendingRetryCallbacks }

/-- Starting the countdown from an idle controller raises the flag, sets
the buffered delay and starts the timer. -/
theorem startRetryCountdown_from_idle (d : Rat) (w : Option Rat)
    (s : RetryControllerState) (hIdle : s.isRateLimited = false)
    (hpos : 0 < ⌈w.getD d⌉ + 1) :
    startRetryCountdown d w s =
      { isRateLimited := true, secondsRemaining := ⌈w.getD d⌉ + 1,
        timerActive := true, isCountingDown := true,
        pendingRetryCallbacks := s.pendingRetryCallbacks,
        retryCallbackRuns := s.retryCallbackRuns } := by
  unfold startRetryCountdown retryCountdownEffect
  rw [hIdle]
  simp [hpos]

/-- A running countdown with K + 1 seconds left finishes after exactly
K + 1 ticks: the controller returns to idle and schedules the retry
callback exactly once. -/
theorem retryTick_run (K : Nat) :
    ∀ s : RetryControllerState, s.timerActive = true →
      s.secondsRemaining = (K : Int) + 1 →
      retryTick^[K + 1] s =
        { isRateLimited := false, secondsRemaining := 0, timerActive := false,
          isCountingDown := false,
          pendingRetryCallbacks := s.pendingRetryCallbacks + 1,
          retryCallbackRuns := s.retryCallbackRuns } := by
  induction K with
  | zero =>
    intro s ht hs
    rw [Function.iterate_one]
    unfold retryTick
    rw [ht, hs]
    norm_num
  | succ K ih =>
    intro s ht hs
    rw [Function.iterate_succ_apply]
    have hpos : ¬ (s.secondsRemaining - 1 ≤ 0) := by
      rw [hs]; push_cast; omega
    have hstep : retryTick s = { s with secondsRemaining := s.secondsRemaining - 1 } := by
      unfold retryTick
      rw [ht]
      simp [hpos]
    rw [hstep]
    exact ih _ ht (by rw [hs]; push_cast; ring)

/-- Before expiry every tick only decrements the counter. -/
theorem retryTick_partial (n : Nat) :
    ∀ (K : Nat) (s : RetryControllerState), s.timerActive = true →
      s.secondsRemaining = (K : Int) + 1 → n ≤ K →
      retryTick^[n] s = { s with secondsRemaining := s.secondsRemaining - n } := by
  induction n with
  | zero => intro K s ht hs hn; simp
  | succ n ih =>
    intro K s ht hs hn
    rw [Function.iterate_succ_apply]
    have hpos : ¬ (s.secondsRemaining - 1 ≤ 0) := by
      rw [hs]; omega
    have hstep : retryTick s = { s with secondsRemaining := s.secondsRemaining - 1 } := by
      unfold retryTick
      rw [ht]
      simp [hpos]
    have h1 : ({ s with secondsRemaining := s.secondsRemaining - 1 } :
        RetryControllerState).secondsRemaining = ((K - 1 : Nat) : Int) + 1 := by
      show s.secondsRemaining - 1 = ((K - 1 : Nat) : Int) + 1
      rw [hs]
      omega
    have h2 : n ≤ K - 1 := by omega
    have hrec := ih (K - 1) { s with secondsRemaining := s.secondsRemaining - 1 } ht h1 h2
    rw [hstep, hrec]
    congr 1
    push_cast
    ring

/-- A cleared interval means ticks never fire: the tick callback is a
fixpoint on any state without an active timer. -/
theorem retryTick_inactive (s : RetryControllerState)
    (h : s.timerActive = false) : retryTick s = s := by
  unfold retryTick
  rw [h]
  simp

/-- C2 at the failing input: triggering startRetryCountdown while a
countdown is already running (isRateLimited already true) clears the old
interval and sets the buffered ceil(waitTime) + 1 seconds, but the
countdown effect, keyed only on the unchanged isRateLimited flag, never
starts a new interval: the resulting state is a fixpoint of the tick, so
the counter never decrements, the controller never returns to idle, and
the retry callback is never scheduled nor run, against the claimed
tick-to-zero-then-fire-once behavior, which the development proves from
an idle controller in startRetryCountdown_from_idle, retryTick_partial
and retryTick_run. -/
theorem claim_C2_retry_frozen_restart (d w : Rat) (s2 : RetryControllerState)
    (hActive : s2.isRateLimited = true) :
    (startRetryCountdown d (some w) s2).secondsRemaining = ⌈w⌉ + 1 ∧
    (startRetryCountdown d (some w) s2).isRateLimited = true ∧
    (startRetryCountdown d (some w) s2).timerActive = false ∧
    (∀ n, retryTick^[n] (startRetryCountdown d (some w) s2) =
      startRetryCountdown d (some w) s2) ∧
    (∀ n,
      (retryTick^[n] (startRetryCountdown d (some w) s2)).pendingRetryCallbacks =
        s2.pendingRetryCallbacks ∧
      (retryTick^[n] (startRetryCountdown d (some w) s2)).retryCallbackRuns =
        s2.retryCallbackRuns ∧
      (retryTick^[n] (startRetryCountdown d (some w) s2)).isRateLimited = true) := by
  have hstart : startRetryCountdown d (some w) s2 =
      { s2 with
        timerActive := false
        isCountingDown := false
        secondsRemaining := ⌈w⌉ + 1
        isRateLimited := true } := by
    unfold startRetryCountdown
    rw [hActive]
    simp
  have hfix : ∀ n, retryTick^[n] (startRetryCountdown d (some w) s2) =
      startRetryCountdown d (some w) s2 := by
    intro n
    exact Function.iterate_fixed (retryTick_inactive _ (by rw [hstart])) n
  refine ⟨by rw [hstart], by rw [hstart], by rw [hstart], hfix, ?_⟩
  intro n
  rw [hfix n, hstart]
  exact ⟨rfl, rfl, rfl⟩

/-- Witness for C2 at startRetryCountdown(5) on a concretely running
countdown with 30 seconds left. -/
theorem claim_C2_retry_frozen_restart_witness :
    (⟨true, 30, true, true, 0, 0⟩ : RetryControllerState).isRateLimited = true ∧
    ((startRetryCountdown 60 (some 5)
        ⟨true, 30, true, true, 0, 0⟩).secondsRemaining = ⌈(5 : Rat)⌉ + 1 ∧
    (startRetryCountdown 60 (some 5)
        ⟨true, 30, true, true, 0, 0⟩).isRateLimited = true ∧
    (startRetryCountdown 60 (some 5)
        ⟨true, 30, true, true, 0, 0⟩).timerActive = false ∧
    (∀ n, retryTick^[n] (startRetryCountdown 60 (some 5)
        ⟨true, 30, true, true, 0, 0⟩) =
      startRetryCountdown 60 (some 5) ⟨true, 30, true, true, 0, 0⟩) ∧
    (∀ n,
      (retryTick^[n] (startRetryCountdown 60 (some 5)
          ⟨true, 30, true, true, 0, 0⟩)).pendingRetryCallbacks =
        (⟨true, 30, true, true, 0, 0⟩ : RetryControllerState).pendingRetryCallbacks ∧
      (retryTick^[n] (startRetryCountdown 60 (some 5)
          ⟨true, 30, true, true, 0, 0⟩)).retryCallbackRuns =
        (⟨true, 30, true, true, 0, 0⟩ : RetryControllerState).retryCallbackRuns ∧
      (retryTick^[n] (startRetryCountdown 60 (some 5)
          ⟨true, 30, true, true, 0, 0⟩)).isRateLimited = true)) :=
  ⟨by decide,
    claim_C2_retry_frozen_restart 60 5 ⟨true, 30, true, true, 0, 0⟩ (by decide)⟩

/-- Auto-refresh interval constant of useAutoRefreshCountdown: three
minutes in milliseconds. -/
def AUTO_REFRESH_INTERVAL : Nat := 3 * 60 * 1000

/-- Observable state of useAutoRefreshCountdown: the countdown cell, the
refreshing flag, the interval handle, and a counter of refresh callback
invocations. -/
structure AutoRefreshState where
  secondsRemaining : Nat
  isRefreshing : Bool
  timerActive : Bool
  refreshCount : Nat
deriving DecidableEq

/-- Initial hook state: the full interval in seconds, not refreshing, no
timer yet. -/
def autoRefreshInit : AutoRefreshState :=
  ⟨AUTO_REFRESH_INTERVAL / 1000, false, false, 0⟩

/-- Main countdown effect of useAutoRefreshCountdown (dependencies
enabled, isPaused, isLoading): clear any existing interval, return early
when disabled or paused, otherwise start the one-second interval.  The
effect never writes secondsRemaining. -/
def autoRefreshEffect (enabled isPaused : Bool) (s : AutoRefreshState) :
    AutoRefreshState :=
  let cleared : AutoRefreshState := { s with timerActive := false }
  if !enabled || isPaused then cleared
  else { cleared with timerActive := true }

/-- One firing of the one-second interval: at one second or less, hold
at zero and refresh once unless loading; otherwise decrement. -/
def autoRefreshTick (isLoading : Bool) (s : AutoRefreshState) : AutoRefreshState :=
  if !s.timerActive then s
  else if s.secondsRemaining ≤ 1 then
    if !isLoading then
      { s with
        secondsRemaining := 0
        isRefreshing := true
        refreshCount := s.refreshCount + 1 }
    else { s with secondsRemaining := 0 }
  else { s with secondsRemaining := s.secondsRemaining - 1 }

/-- resetCountdown: back to the full interval, not refreshing. -/
def resetAutoRefreshCountdown (s : AutoRefreshState) : AutoRefreshState :=
  { s with
    secondsRemaining := AUTO_REFRESH_INTERVAL / 1000
    isRefreshing := false }

/-- C7 counterexample: run an enabled scheduler for two ticks (180 to
178), toggle enabled off (timer cleared), then back on: the timer
restarts but the countdown stands at 178, not at the fresh
intervalSeconds value 180 the claim asserts. -/
theorem claim_C7_counterexample :
    (autoRefreshEffect false false
        (autoRefreshTick false (autoRefreshTick false
          (autoRefreshEffect true false autoRefreshInit)))).timerActive = false ∧
    (autoRefreshEffect true false (autoRefreshEffect false false
        (autoRefreshTick false (autoRefreshTick false
          (autoRefreshEffect true false autoRefreshInit))))).timerActive = true ∧
    (autoRefreshEffect true false (autoRefreshEffect false false
        (autoRefreshTick false (autoRefreshTick false
          (autoRefreshEffect true false autoRefreshInit))))).secondsRemaining = 178 ∧
    ¬ (autoRefreshEffect true false (autoRefreshEffect false false
        (autoRefreshTick false (autoRefreshTick false
          (autoRefreshEffect true false autoRefreshInit))))).secondsRemaining =
        AUTO_REFRESH_INTERVAL / 1000 := by decide

/-- C7 as amended: toggling enabled or isPaused off immediately clears
the repeating timer and retains the countdown value; toggling either
back on restarts the one-second timer, which resumes from the retained
secondsRemaining rather than from intervalSeconds. -/
theorem claim_C7_toggle (s : AutoRefreshState) (enabled isPaused : Bool) :
    ((enabled = false ∨ isPaused = true) →
      (autoRefreshEffect enabled isPaused s).timerActive = false ∧
      (autoRefreshEffect enabled isPaused s).secondsRemaining = s.secondsRemaining) ∧
    ((enabled = true ∧ isPaused = false) →
      (autoRefreshEffect enabled isPaused s).timerActive = true ∧
      (autoRefreshEffect enabled isPaused s).secondsRemaining = s.secondsRemaining) := by
  cases enabled <;> cases isPaused <;> simp [autoRefreshEffect]

/-- Witness for C7 as amended: toggling off at the initial state clears
the timer and keeps the countdown. -/
theorem claim_C7_toggle_witness :
    (autoRefreshEffect false false autoRefreshInit).timerActive = false ∧
    (autoRefreshEffect false false autoRefreshInit).secondsRemaining =
      autoRefreshInit.secondsRemaining :=
  (claim_C7_toggle autoRefreshInit false false).1 (Or.inl rfl)

/-- JS String.prototype.split at a single separator character, on the
character data. -/
def splitChars (sep : Char) : List Char → List (List Char)
  | [] => [[]]
  | c :: rest =>
    let r := splitChars sep rest
    if c == sep then [] :: r
    else match r with
      | [] => [[c]]
      | h :: t => (c :: h) :: t

/-- JS Number() on the digits of a field of the timestamp, as a simple
digit fold; the conversion paths proved here never reach it. -/
def parseNatChars (cs : List Char) : Nat :=
  cs.foldl (fun acc c => acc * 10 + (c.toNat - 48)) 0

/-- Rendered calendar fields of an instant in a timezone, as read from
the parts of an Intl.DateTimeFormat. -/
structure DateParts where
  year : Nat
  month : Nat
  day : Nat
  hour : Nat
  minute : Nat

/-- Ambient date and locale services consumed by convertTimezone:
Date.UTC builds an epoch-milliseconds instant from calendar fields, and
formatParts renders an instant in a named timezone; none models an
exception thrown during locale resolution, which the function
catches. -/
structure IntlEnv where
  utcMillis : Nat → Nat → Nat → Nat → Nat → Int
  formatParts : String → Int → Option DateParts

/-- Two-digit left zero-padding, from padStart(2, 0). -/
def pad2 (n : Nat) : String :=
  if (toString n).length < 2 then "0" ++ toString n else toString n

/-- The daily-granularity check of convertTimezone: the string has a
space and a second space-separated field. -/
def hasTimeComponent (dateStr : String) : Bool :=
  jsIncludes dateStr " " && (splitChars ' ' dateStr.data).length > 1

/-- convertTimezone from the timezone utility: identical source and
target timezones and date-only strings are returned unchanged; otherwise
the wall clock is interpreted as UTC to get a reference instant, the
difference against its rendering in the source timezone realigns it to
the true instant, which is rendered in the target timezone, normalizing
a 24:00 artifact, and formatted back to YYYY-MM-DD HH:MM. -/
def convertTimezone (env : IntlEnv) (dateStr fromTimezone toTimezone : String) :
    String :=
  if fromTimezone == toTimezone then dateStr
  else
    if !hasTimeComponent dateStr then dateStr
    else
      let parts := splitChars ' ' dateStr.data
      let datePart := parts.getD 0 []
      let timePart := parts.getD 1 []
      let dateNums := (splitChars '-' datePart).map parseNatChars
      let year := dateNums.getD 0 0
      let month := dateNums.getD 1 0
      let day := dateNums.getD 2 0
      let timeNums := (splitChars ':' timePart).map parseNatChars
      let hour := timeNums.getD 0 0
      let minute := timeNums.getD 1 0
      let refMillis := env.utcMillis year (month - 1) day hour minute
      match env.formatParts fromTimezone refMillis with
      | none => dateStr
      | some sourceDisplay =>
        let wantedMinutes := hour * 60 + minute + day * 24 * 60
        let sourceMinutes :=
          sourceDisplay.hour * 60 + sourceDisplay.minute + sourceDisplay.day * 24 * 60
        let diffMinutes : Int := (wantedMinutes : Int) - (sourceMinutes : Int)
        let actualUtcTime := refMillis + diffMinutes * 60000
        match env.formatParts toTimezone actualUtcTime with
        | none => dateStr
        | some targetDisplay =>
          let targetHour := if targetDisplay.hour = 24 then 0 else targetDisplay.hour
          toString targetDisplay.year ++ "-" ++ pad2 targetDisplay.month ++ "-" ++
            pad2 targetDisplay.day ++ " " ++ pad2 targetHour ++ ":" ++
            pad2 targetDisplay.minute

/-- C8: conversion from a timezone to itself returns the input
unchanged for every wall-clock string, timed or date-only, whatever the
ambient locale services do; and a date-only string (no time-of-day
component) is returned unchanged for every pair of timezones. -/
theorem claim_C8_timezone_identity (env : IntlEnv) (x Z Z1 Z2 : String) :
    convertTimezone env x Z Z = x ∧
    (hasTimeComponent x = false → convertTimezone env x Z1 Z2 = x) := by
  constructor
  · unfold convertTimezone
    rw [if_pos (by simp)]
  · intro h
    unfold convertTimezone
    by_cases hz : (Z1 == Z2) = true
    · rw [if_pos hz]
    · rw [if_neg hz]
      simp [h]

/-- Witness for C8: the same-zone identity at a timed wall-clock string,
and the date-only identity across two distinct zones, under trivial
locale services. -/
theorem claim_C8_timezone_identity_witness :
    convertTimezone ⟨fun _ _ _ _ _ => 0, fun _ _ => none⟩ "2024-01-01 09:00"
        "Asia/Hong_Kong" "Asia/Hong_Kong" = "2024-01-01 09:00" ∧
    (hasTimeComponent "2024-01-01" = false ∧
      convertTimezone ⟨fun _ _ _ _ _ => 0, fun _ _ => none⟩ "2024-01-01"
        "Asia/Hong_Kong" "America/New_York" = "2024-01-01") :=
  ⟨(claim_C8_timezone_identity ⟨fun _ _ _ _ _ => 0, fun _ _ => none⟩
      "2024-01-01 09:00" "Asia/Hong_Kong" "UTC" "UTC").1,
    by decide,
    (claim_C8_timezone_identity ⟨fun _ _ _ _ _ => 0, fun _ _ => none⟩
      "2024-01-01" "UTC" "Asia/Hong_Kong" "America/New_York").2 (by decide)⟩

/-- The day-by-day forward scan of calculateTimeInfo for the next
trading day: starting from tomorrow, advance (wrapping weekly) until a
trading day is hit.  The JS while loop has no bound; seven iterations
always suffice when some weekday trades, so the loop is rendered with
fuel 7. -/
def scanDaysUntilOpen (tradingDays : List Nat) : Nat → Nat → Nat → Nat
  | 0, daysUntilOpen, _ => daysUntilOpen
  | fuel + 1, daysUntilOpen, nextDay =>
    if tradingDays.contains nextDay then daysUntilOpen
    else scanDaysUntilOpen tradingDays fuel (daysUntilOpen + 1) ((nextDay + 1) % 7)

/-- The scan returns the distance in days to the first trading day at
or after the start day: the day it lands on trades, and no earlier day
does. -/
theorem scanDaysUntilOpen_spec (td : List Nat) :
    ∀ (fuel d0 start : Nat), start < 7 →
      (∃ j, j < fuel ∧ (start + j) % 7 ∈ td) →
      d0 ≤ scanDaysUntilOpen td fuel d0 start ∧
      (start + (scanDaysUntilOpen td fuel d0 start - d0)) % 7 ∈ td ∧
      (∀ i, i < scanDaysUntilOpen td fuel d0 start - d0 → (start + i) % 7 ∉ td) := by
  intro fuel
  induction fuel with
  | zero =>
    intro d0 start h7 hex
    rcases hex with ⟨j, hj, _⟩
    omega
  | succ fuel ih =>
    intro d0 start h7 hex
    by_cases hmem : td.contains start = true
    · have hmem2 : start ∈ td := List.elem_iff.mp hmem
      unfold scanDaysUntilOpen
      rw [if_pos hmem]
      refine ⟨le_refl d0, ?_, ?_⟩
      · simpa [Nat.mod_eq_of_lt h7] using hmem2
      · intro i hi
        omega
    · have hmem2 : start ∉ td := fun hc => hmem (List.elem_iff.mpr hc)
      unfold scanDaysUntilOpen
      rw [if_neg hmem]
      rcases hex with ⟨j, hj, hjmem⟩
      have hj0 : j ≠ 0 := by
        intro h0
        subst h0
        rw [Nat.add_zero, Nat.mod_eq_of_lt h7] at hjmem
        exact hmem2 hjmem
      have hex2 : ∃ j2, j2 < fuel ∧ (((start + 1) % 7) + j2) % 7 ∈ td := by
        refine ⟨j - 1, by omega, ?_⟩
        have e1 : (((start + 1) % 7) + (j - 1)) % 7 = (start + 1 + (j - 1)) % 7 :=
          Nat.mod_add_mod (start + 1) 7 (j - 1)
        have e2 : start + 1 + (j - 1) = start + j := by omega
        rw [e1, e2]
        exact hjmem
      have hrec := ih (d0 + 1) ((start + 1) % 7) (Nat.mod_lt _ (by norm_num)) hex2
      obtain ⟨hle, hhit, hmin⟩ := hrec
      refine ⟨by omega, ?_, ?_⟩
      · have h1 : scanDaysUntilOpen td fuel (d0 + 1) ((start + 1) % 7) - d0 =
            (scanDaysUntilOpen td fuel (d0 + 1) ((start + 1) % 7) - (d0 + 1)) + 1 := by
          omega
        rw [h1]
        have h2 : (start + ((scanDaysUntilOpen td fuel (d0 + 1) ((start + 1) % 7) - (d0 + 1)) + 1)) % 7 =
            (((start + 1) % 7) + (scanDaysUntilOpen td fuel (d0 + 1) ((start + 1) % 7) - (d0 + 1))) % 7 := by
          rw [Nat.mod_add_mod]
          congr 1
          omega
        rw [h2]
        exact hhit
      · intro i hi
        cases i with
        | zero =>
          rw [Nat.add_zero, Nat.mod_eq_of_lt h7]
          exact hmem2
        | succ i2 =>
          have e1 : (start + (i2 + 1)) % 7 = (((start + 1) % 7) + i2) % 7 := by
            rw [Nat.mod_add_mod]
            congr 1
            omega
          rw [e1]
          exact hmin i2 (by omega)

/-- Every weekday is reached within seven days of any start day. -/
theorem residue_reachable (start d : Nat) (hs : start < 7) (hd : d < 7) :
    ∃ j, j < 7 ∧ (start + j) % 7 = d := by
  by_cases h : start ≤ d
  · refine ⟨d - start, by omega, ?_⟩
    have e : start + (d - start) = d := by omega
    rw [e]
    exact Nat.mod_eq_of_lt hd
  · refine ⟨7 + d - start, by omega, ?_⟩
    have e : start + (7 + d - start) = 7 + d := by omega
    rw [e, Nat.add_mod_left]
    exact Nat.mod_eq_of_lt hd

/-- Static per-exchange trading-hours profile of MarketStatus. -/
structure ExchangeConfig where
  name : String
  timezone : String
  openHour : Nat
  openMinute : Nat
  closeHour : Nat
  closeMinute : Nat
  tradingDays : List Nat
deriving DecidableEq

/-- The decision outputs of calculateTimeInfo: open flag, trading-day
flag, countdown string and its label.  The purely presentational fields
(formatted local and exchange times) are omitted. -/
structure TimeInfoCore where
  isOpen : Bool
  isTradingDay : Bool
  countdown : String
  countdownLabel : String
deriving DecidableEq

/-- Countdown rendering of MarketStatus: hours and minutes, with a day
component once at or above 24 hours. -/
def formatCountdown (totalMinutes : Nat) : String :=
  let hours := totalMinutes / 60
  let minutes := totalMinutes % 60
  if hours ≥ 24 then
    let days := hours / 24
    let remainingHours := hours % 24
    toString days ++ "d " ++ toString remainingHours ++ "h " ++ toString minutes ++ "m"
  else
    toString hours ++ "h " ++ toString minutes ++ "m"

/-- Decision logic of calculateTimeInfo in MarketStatus, given the
current weekday, hour and minute as already rendered in the exchange
timezone (the Date and Intl plumbing that produces them is the ambient
clock service): trading-day and open flags, and the countdown to the
next transition. -/
def calculateTimeInfo (config : ExchangeConfig)
    (exchangeDayOfWeek exchangeHour exchangeMinute : Nat) : TimeInfoCore :=
  let isTradingDay := config.tradingDays.contains exchangeDayOfWeek
  let currentExchangeMinutes := exchangeHour * 60 + exchangeMinute
  let openMinutes := config.openHour * 60 + config.openMinute
  let closeMinutes := config.closeHour * 60 + config.closeMinute
  let isOpen := isTradingDay && currentExchangeMinutes ≥ openMinutes &&
    currentExchangeMinutes < closeMinutes
  if !isTradingDay then
    let daysUntilOpen :=
      scanDaysUntilOpen config.tradingDays 7 1 ((exchangeDayOfWeek + 1) % 7)
    let minutesUntilMidnight := 24 * 60 - currentExchangeMinutes
    let totalMinutes :=
      minutesUntilMidnight + (daysUntilOpen - 1) * (24 * 60) + openMinutes
    ⟨isOpen, isTradingDay, formatCountdown totalMinutes, "until market opens"⟩
  else if isOpen then
    ⟨isOpen, isTradingDay, formatCountdown (closeMinutes - currentExchangeMinutes),
      "until market closes"⟩
  else if currentExchangeMinutes < openMinutes then
    ⟨isOpen, isTradingDay, formatCountdown (openMinutes - currentExchangeMinutes),
      "until market opens"⟩
  else
    let daysUntilOpen :=
      scanDaysUntilOpen config.tradingDays 7 1 ((exchangeDayOfWeek + 1) % 7)
    let minutesUntilMidnight := 24 * 60 - currentExchangeMinutes
    let totalMinutes :=
      minutesUntilMidnight + (daysUntilOpen - 1) * (24 * 60) + openMinutes
    ⟨isOpen, isTradingDay, formatCountdown totalMinutes, "until market opens"⟩

/-- C6: on a non-trading day the calculator reports closed and not a
trading day, with a countdown of minutes to midnight plus full skipped
days times 1440 plus minutes from midnight to the opening time,
targeting the next trading day: the day the scan lands on trades and no
earlier day does. -/
theorem claim_C6_market_closed_day (config : ExchangeConfig)
    (dow hour minute : Nat) (hdow : dow < 7) (hh : hour < 24) (hm : minute < 60)
    (hnt : dow ∉ config.tradingDays)
    (htd : ∃ d ∈ config.tradingDays, d < 7) :
    (calculateTimeInfo config dow hour minute).isTradingDay = false ∧
    (calculateTimeInfo config dow hour minute).isOpen = false ∧
    (calculateTimeInfo config dow hour minute).countdownLabel = "until market opens" ∧
    (calculateTimeInfo config dow hour minute).countdown =
      formatCountdown ((24 * 60 - (hour * 60 + minute)) +
        (scanDaysUntilOpen config.tradingDays 7 1 ((dow + 1) % 7) - 1) * (24 * 60) +
        (config.openHour * 60 + config.openMinute)) ∧
    1 ≤ scanDaysUntilOpen config.tradingDays 7 1 ((dow + 1) % 7) ∧
    (dow + scanDaysUntilOpen config.tradingDays 7 1 ((dow + 1) % 7)) % 7 ∈
      config.tradingDays ∧
    (∀ j, 1 ≤ j → j < scanDaysUntilOpen config.tradingDays 7 1 ((dow + 1) % 7) →
      (dow + j) % 7 ∉ config.tradingDays) := by
  have _ := hdow
  have _ := hh
  have _ := hm
  have hstart : (dow + 1) % 7 < 7 := Nat.mod_lt _ (by norm_num)
  rcases htd with ⟨d, hd, hd7⟩
  rcases residue_reachable ((dow + 1) % 7) d hstart hd7 with ⟨j, hj7, hjhit⟩
  have hex : ∃ j2, j2 < 7 ∧ (((dow + 1) % 7) + j2) % 7 ∈ config.tradingDays :=
    ⟨j, hj7, by rw [hjhit]; exact hd⟩
  have hscan := scanDaysUntilOpen_spec config.tradingDays 7 1 ((dow + 1) % 7) hstart hex
  obtain ⟨hone, hhit, hmin⟩ := hscan
  have hshift : ∀ i : Nat, (((dow + 1) % 7) + i) % 7 = (dow + (i + 1)) % 7 := by
    intro i
    rw [Nat.mod_add_mod]
    congr 1
    omega
  refine ⟨?_, ?_, ?_, ?_, hone, ?_, ?_⟩
  · unfold calculateTimeInfo
    simp [hnt]
  · unfold calculateTimeInfo
    simp [hnt]
  · unfold calculateTimeInfo
    simp [hnt]
  · unfold calculateTimeInfo
    simp [hnt]
  · have e1 : (dow + scanDaysUntilOpen config.tradingDays 7 1 ((dow + 1) % 7)) % 7 =
        (((dow + 1) % 7) + (scanDaysUntilOpen config.tradingDays 7 1 ((dow + 1) % 7) - 1)) % 7 := by
      rw [hshift]
      congr 1
      omega
    rw [e1]
    exact hhit
  · intro j2 hj1 hj2
    have e1 : (dow + j2) % 7 = (((dow + 1) % 7) + (j2 - 1)) % 7 := by
      rw [hshift]
      congr 1
      omega
    rw [e1]
    exact hmin (j2 - 1) (by omega)

/-- Witness for C6: a Mon-Fri 09:30-16:00 New York profile evaluated on
a Saturday at 10:00. -/
theorem claim_C6_market_closed_day_witness :
    ((6 : Nat) < 7 ∧ (10 : Nat) < 24 ∧ (0 : Nat) < 60 ∧
      (6 : Nat) ∉ [1, 2, 3, 4, 5] ∧ ∃ d ∈ [1, 2, 3, 4, 5], d < 7) ∧
    ((calculateTimeInfo ⟨"NYSE", "America/New_York", 9, 30, 16, 0, [1, 2, 3, 4, 5]⟩
        6 10 0).isTradingDay = false ∧
    (calculateTimeInfo ⟨"NYSE", "America/New_York", 9, 30, 16, 0, [1, 2, 3, 4, 5]⟩
        6 10 0).isOpen = false ∧
    (calculateTimeInfo ⟨"NYSE", "America/New_York", 9, 30, 16, 0, [1, 2, 3, 4, 5]⟩
        6 10 0).countdownLabel = "until market opens" ∧
    (calculateTimeInfo ⟨"NYSE", "America/New_York", 9, 30, 16, 0, [1, 2, 3, 4, 5]⟩
        6 10 0).countdown =
      formatCountdown ((24 * 60 - (10 * 60 + 0)) +
        (scanDaysUntilOpen [1, 2, 3, 4, 5] 7 1 ((6 + 1) % 7) - 1) * (24 * 60) +
        (9 * 60 + 30)) ∧
    1 ≤ scanDaysUntilOpen [1, 2, 3, 4, 5] 7 1 ((6 + 1) % 7) ∧
    (6 + scanDaysUntilOpen [1, 2, 3, 4, 5] 7 1 ((6 + 1) % 7)) % 7 ∈
      [1, 2, 3, 4, 5] ∧
    (∀ j, 1 ≤ j → j < scanDaysUntilOpen [1, 2, 3, 4, 5] 7 1 ((6 + 1) % 7) →
      (6 + j) % 7 ∉ [1, 2, 3, 4, 5])) :=
  ⟨⟨by decide, by decide, by decide, by decide, by decide⟩,
    claim_C6_market_closed_day ⟨"NYSE", "America/New_York", 9, 30, 16, 0, [1, 2, 3, 4, 5]⟩
      6 10 0 (by decide) (by decide) (by decide) (by decide) (by decide)⟩

